import Mathlib

/-!
Verification of the dwfpy continuous-acquisition recorder subsystem
(`dwfpy/analog_recorder.py` and `dwfpy/digital_recorder.py`).

The recorder drains an instrument into a fixed-capacity ring buffer:
each poll cycle reads an `(available, lost, corrupted)` triple, advances
the write cursor past lost slots, commits the available samples in
non-wrapping chunks, and on completion linearizes the ring buffer into
chronological order.

The embedding below is a faithful translation of that code.  Sample
values are kept abstract (type `α`): the analog recorder stores float64
voltages and the digital recorder packed integers, but none of the
recorder logic inspects sample values.  The analog recorder keeps one
buffer per enabled channel, all updated identically by the same loop;
the model keeps a single data buffer (one enabled channel) plus the
digital recorder's optional noise companion buffer, which the same loop
writes at the same cursor positions.
-/

namespace DwfPy

/-- Instrument status, from `constants.py` (`Status` enum).  `TRIGGERED`
is a numeric alias of `RUNNING` in the source and is modelled by the
same constructor. -/
inductive Status where
  | ready
  | armed
  | done
  | running
  | config
  | prefill
  | wait
deriving DecidableEq, Repr

/-- One poll cycle's instrument report: the status returned by
`read_status(read_data=True)`, the triple from `record_status`, and the
sample data retrieved by `dwf_..._status_data2` (`available` holds the
cycle's available samples, so `available.length` is the reported
available count) and `dwf_digital_in_status_noise2` (`noise`; empty
when noise capture is off). -/
structure PollReport (α : Type) where
  status : Status
  available : List α
  lost : Nat
  corrupted : Nat
  noise : List α := []
deriving DecidableEq, Repr

/-- Builds a report with no noise data. -/
def mkReport (status : Status) (available : List α) (lost corrupted : Nat) :
    PollReport α :=
  { status := status, available := available, lost := lost, corrupted := corrupted }

/-- The recorder's mutable fields, from `AnalogRecorder.__init__` /
`DigitalRecorder.__init__`.  `dataBuffer` is the (single enabled
channel's) ring buffer `_data_buffers[i]` / `_data_buffer`;
`dataSamples` is the finalized `ChannelData._data_samples` /
`_data_samples`. -/
structure RecorderState (α : Type) where
  isSetup : Bool
  bufferSize : Nat
  bufferIndex : Nat
  dataBuffer : List α
  noiseBuffer : Option (List α)
  status : Status
  requestedSamples : Nat
  totalSamples : Nat
  lostSamples : Nat
  corruptedSamples : Nat
  dataSamples : Option (List α)
  noiseSamples : Option (List α)
deriving DecidableEq, Repr

/-- The freshly constructed recorder (`__init__`): not set up, empty
buffers, all counters zero, status `READY`. -/
def initRecorder : RecorderState α where
  isSetup := false
  bufferSize := 0
  bufferIndex := 0
  dataBuffer := []
  noiseBuffer := none
  status := Status.ready
  requestedSamples := 0
  totalSamples := 0
  lostSamples := 0
  corruptedSamples := 0
  dataSamples := none
  noiseSamples := none

/-- `_normalize_ring_buffer(buffer, index)`: returns the buffer
unchanged when `index == 0`, otherwise the concatenation of
`buffer[index:]` and `buffer[:index]`. -/
def normalizeRingBuffer (buffer : List α) (index : Nat) : List α :=
  if index = 0 then buffer else buffer.drop index ++ buffer.take index

/-- One contiguous (non-wrapping) copy of `chunk` into `buffer` at
`index`, as performed by `dwf_analog_in_status_data2` /
`dwf_digital_in_status_data2` into `byref(buffer, index)`. -/
def writeChunk (buffer : List α) (index : Nat) (chunk : List α) : List α :=
  buffer.take index ++ chunk ++ buffer.drop (index + chunk.length)

/-- The chunked commit loop of `_process_recording` (`while
available_samples > 0`): each iteration copies
`chunk_size = min(available, bufferSize - bufferIndex)` samples
contiguously and advances the cursor modulo `bufferSize`.  The source
loop has no fuel; since every iteration consumes at least one sample
while `bufferIndex < bufferSize` (the loop's invariant, established by
the `%=` before the loop for a positive buffer size), fuel equal to the
number of available samples makes the recursion structural without
changing any reachable behaviour. -/
def commitChunksAux (bufferSize : Nat) :
    Nat → List α → Nat → List α → List α × Nat
  | 0, buffer, bufferIndex, _ => (buffer, bufferIndex)
  | fuel + 1, buffer, bufferIndex, available =>
    if available.length = 0 ∨ bufferSize ≤ bufferIndex then (buffer, bufferIndex)
    else
      let chunkSize :=
        if bufferSize < bufferIndex + available.length then bufferSize - bufferIndex
        else available.length
      commitChunksAux bufferSize fuel
        (writeChunk buffer bufferIndex (available.take chunkSize))
        ((bufferIndex + chunkSize) % bufferSize)
        (available.drop chunkSize)

/-- The commit loop of `_process_recording`, entered with the cycle's
available samples. -/
def commitChunks (bufferSize : Nat) (buffer : List α) (bufferIndex : Nat)
    (available : List α) : List α × Nat :=
  commitChunksAux bufferSize available.length buffer bufferIndex available

/-- `_process_recording`: reads the status and the
`(available, lost, corrupted)` triple, advances the cursor by the lost
count modulo the buffer size, accumulates the counters, commits the
available samples (and, when a noise buffer exists, the cycle's noise
samples at the same positions), and returns `status != Status.DONE`. -/
def processRecording (state : RecorderState α) (report : PollReport α) :
    RecorderState α × Bool :=
  let bufferIndex := (state.bufferIndex + report.lost) % state.bufferSize
  let committed := commitChunks state.bufferSize state.dataBuffer bufferIndex report.available
  let noiseCommitted :=
    match state.noiseBuffer with
    | some nb => some (commitChunks state.bufferSize nb bufferIndex report.noise).1
    | none => none
  ({ state with
      status := report.status
      bufferIndex := committed.2
      dataBuffer := committed.1
      noiseBuffer := noiseCommitted
      totalSamples := state.totalSamples + report.lost + report.available.length
      lostSamples := state.lostSamples + report.lost
      corruptedSamples := state.corruptedSamples + report.corrupted },
    decide (report.status ≠ Status.done))

/-- `_finalize_recording`: linearizes each present ring buffer at the
final cursor and publishes the results; clears the setup flag.  (The
analog variant keeps its ctypes buffers afterwards; the digital variant
drops them — the model keeps them, which no claim observes.) -/
def finalizeRecording (state : RecorderState α) : RecorderState α :=
  { state with
      dataSamples := some (normalizeRingBuffer state.dataBuffer state.bufferIndex)
      noiseSamples :=
        match state.noiseBuffer with
        | some nb => some (normalizeRingBuffer nb state.bufferIndex)
        | none => state.noiseSamples
      isSetup := false }

/-- `_setup_recording`: computes the capacity (analog:
`round(record_length * frequency)`; digital: `prefill + position` —
passed here as `capacity`), clears the published samples, and when the
capacity is positive allocates fresh zero-initialized buffers
(`zero` is the element type's default: ctypes arrays are
zero-initialized), resets the cursor, and arms the setup flag.  The
session counters are not touched.  `acquireNoise` is
`sample_mode == NOISE` (always false for the analog recorder, which has
no noise buffer). -/
def setupRecording (zero : α) (capacity : Nat) (acquireNoise : Bool)
    (state : RecorderState α) : RecorderState α :=
  let state := { state with
    dataSamples := none
    noiseSamples := none
    bufferSize := capacity }
  if 0 < capacity then
    { state with
        requestedSamples := capacity
        bufferIndex := 0
        dataBuffer := List.replicate capacity zero
        noiseBuffer := if acquireNoise then some (List.replicate capacity zero) else none
        isSetup := true }
  else
    state

/-- The loop body of `record()`: one poll cycle, then the user callback
(which sees the updated recorder), continuing only while both
continuation signals are true.  `reports` supplies the successive
instrument reports; the callback receives the number of completed
cycles so far, modelling a stateful Python closure.  Returns the final
state and the number of poll cycles performed. -/
def recordCycles (callback : Nat → RecorderState α → Bool) :
    RecorderState α → List (PollReport α) → Nat → RecorderState α × Nat
  | state, [], polls => (state, polls)
  | state, report :: reports, polls =>
    let step := processRecording state report
    let againUser := callback polls step.1
    if step.2 && againUser then recordCycles callback step.1 reports (polls + 1)
    else (step.1, polls + 1)

/-- `record(callback)`: sets up if needed, issues `configure(start=True)`
exactly when the setup just succeeded, then loops and finalizes.
Returns the final state, whether `configure(start=True)` was issued,
and the number of poll cycles performed. -/
def record (zero : α) (capacity : Nat) (acquireNoise : Bool)
    (reports : List (PollReport α)) (callback : Nat → RecorderState α → Bool)
    (state : RecorderState α) : RecorderState α × Bool × Nat :=
  let setupState :=
    if state.isSetup then state else setupRecording zero capacity acquireNoise state
  let configured := !state.isSetup && setupState.isSetup
  if setupState.isSetup then
    let run := recordCycles callback setupState reports 0
    (finalizeRecording run.1, configured, run.2)
  else
    (setupState, configured, 0)

/-- `process()`: sets up if needed, performs one poll cycle, finalizes
when the cycle reports completion.  Returns the new state, the
continue-flag returned to the caller, and whether
`configure(start=True)` was issued. -/
def process (zero : α) (capacity : Nat) (acquireNoise : Bool)
    (report : PollReport α) (state : RecorderState α) :
    RecorderState α × Bool × Bool :=
  let setupState :=
    if state.isSetup then state else setupRecording zero capacity acquireNoise state
  let configured := !state.isSetup && setupState.isSetup
  if setupState.isSetup then
    let step := processRecording setupState report
    if step.2 then (step.1, true, configured)
    else (finalizeRecording step.1, false, configured)
  else
    (setupState, false, configured)

/-- `_setup_streaming`: no buffers, zero capacity, published samples
cleared, setup flag armed unconditionally. -/
def setupStreaming (state : RecorderState α) : RecorderState α :=
  { state with
      requestedSamples := 0
      bufferSize := 0
      dataSamples := none
      noiseSamples := none
      isSetup := true }

/-- `_update_streaming`: accumulates the counters and hands the cycle's
already-linear chunk (`get_data(sample_count=available)`, and the noise
chunk when noise capture is on) straight to the caller; returns
`status != Status.DONE`. -/
def updateStreaming (acquireNoise : Bool) (state : RecorderState α)
    (report : PollReport α) : RecorderState α × Bool :=
  ({ state with
      status := report.status
      totalSamples := state.totalSamples + report.lost + report.available.length
      lostSamples := state.lostSamples + report.lost
      corruptedSamples := state.corruptedSamples + report.corrupted
      dataSamples := some report.available
      noiseSamples := if acquireNoise then some report.noise else state.noiseSamples },
    decide (report.status ≠ Status.done))

/-- The loop body of `stream()`: one poll cycle, then the callback,
ANDing the two continuation signals, as in `recordCycles`. -/
def streamCycles (acquireNoise : Bool) (callback : Nat → RecorderState α → Bool) :
    RecorderState α → List (PollReport α) → Nat → RecorderState α × Nat
  | state, [], polls => (state, polls)
  | state, report :: reports, polls =>
    let step := updateStreaming acquireNoise state report
    let againUser := callback polls step.1
    if step.2 && againUser then streamCycles acquireNoise callback step.1 reports (polls + 1)
    else (step.1, polls + 1)

/-- `_finalize_streaming`: forces status `DONE` and clears the setup
flag. -/
def finalizeStreaming (state : RecorderState α) : RecorderState α :=
  { state with status := Status.done, isSetup := false }

/-- `stream(callback)`: sets up if needed, loops, finalizes.  Returns
the final state and the number of poll cycles performed. -/
def stream (acquireNoise : Bool) (reports : List (PollReport α))
    (callback : Nat → RecorderState α → Bool) (state : RecorderState α) :
    RecorderState α × Nat :=
  let setupState := if state.isSetup then state else setupStreaming state
  if setupState.isSetup then
    let run := streamCycles acquireNoise callback setupState reports 0
    (finalizeStreaming run.1, run.2)
  else
    (setupState, 0)

/-- Runs `_process_recording` over a list of reports, keeping only the
state (the `process()`-style incremental drive of a recording). -/
def recordRun (state : RecorderState α) (reports : List (PollReport α)) :
    RecorderState α :=
  reports.foldl (fun s r => (processRecording s r).1) state

/-- Pointwise view of the commit loop, used by the specification:
writes the elements of `data` one by one at successive cursor positions
modulo `capacity`.  The chunked commit loop is proved equal to this
below. -/
def cyclicWrite (capacity : Nat) : List α → Nat → List α → List α
  | buffer, _, [] => buffer
  | buffer, start, x :: rest =>
    cyclicWrite capacity (buffer.set (start % capacity) x) (start + 1) rest

/-- A recording driven by one-element commits: every committed sample
arrives in its own poll cycle with no loss and no corruption. -/
def oneElementReports (xs : List α) : List (PollReport α) :=
  xs.map fun x => mkReport Status.running [x] 0 0

/-- The buffer slots written by one poll cycle (specification device):
the cursor first skips the lost slots, then the available samples
occupy successive positions modulo the capacity.  Returns the written
positions and the cursor after the cycle. -/
def cycleWrites (capacity cursor : Nat) (report : PollReport α) : List Nat × Nat :=
  let start := (cursor + report.lost) % capacity
  ((List.range report.available.length).map fun j => (start + j) % capacity,
   (start + report.available.length) % capacity)

/-- All buffer slots written across a run of poll cycles, with the
cursor threaded exactly as `_process_recording` threads it. -/
def runWrites (capacity : Nat) : Nat → List (PollReport α) → List Nat
  | _, [] => []
  | cursor, report :: reports =>
    let w := cycleWrites capacity cursor report
    w.1 ++ runWrites capacity w.2 reports

/-- The sequence of contiguous copies performed by the commit loop:
each piece is a destination index together with the samples written
there in one `dwf_..._status_data2` call.  Mirrors `commitChunksAux`
step for step. -/
def commitPiecesAux (bufferSize : Nat) : Nat → Nat → List α → List (Nat × List α)
  | 0, _, _ => []
  | fuel + 1, bufferIndex, available =>
    if available.length = 0 ∨ bufferSize ≤ bufferIndex then []
    else
      let chunkSize :=
        if bufferSize < bufferIndex + available.length then bufferSize - bufferIndex
        else available.length
      (bufferIndex, available.take chunkSize) ::
        commitPiecesAux bufferSize fuel ((bufferIndex + chunkSize) % bufferSize)
          (available.drop chunkSize)

/-- The contiguous copies performed by one commit of `available`
samples at the given cursor. -/
def commitPieces (bufferSize bufferIndex : Nat) (available : List α) :
    List (Nat × List α) :=
  commitPiecesAux bufferSize available.length bufferIndex available

/-- Well-formedness of a recorder state that is in the middle of a
bounded recording of the given capacity: the buffer size is the
capacity, the data buffer (and the noise buffer when present) has that
length, and the cursor is in range.  Established by `_setup_recording`
and preserved by every poll cycle. -/
def GoodState (capacity : Nat) (s : RecorderState α) : Prop :=
  s.bufferSize = capacity ∧ s.dataBuffer.length = capacity ∧
    s.bufferIndex < capacity ∧
    (∀ nb, s.noiseBuffer = some nb → nb.length = capacity)

/-- Runs `_update_streaming` over a list of reports, keeping only the
state. -/
def streamRun (acquireNoise : Bool) (state : RecorderState α)
    (reports : List (PollReport α)) : RecorderState α :=
  reports.foldl (fun s r => (updateStreaming acquireNoise s r).1) state

/-- The error raised by `DigitalRecorder._setup_recording` when the
sample format is unsupported (`ValueError` in the source). -/
inductive DwfError where
  | invalidSampleFormat
deriving DecidableEq, Repr

/-- The buffers allocated by `DigitalRecorder._setup_recording`:
element size in bytes, the zero-initialized data buffer, and the
optional zero-initialized noise buffer.  Digital samples are packed
unsigned integers, modelled as `Nat`. -/
structure DigitalBuffers where
  sampleSize : Nat
  dataBuffer : List Nat
  noiseBuffer : Option (List Nat)
deriving DecidableEq, Repr

/-- The buffer-construction branch of `DigitalRecorder._setup_recording`:
`sample_format <= 8` selects 1-byte elements, `<= 16` 2-byte, `<= 32`
4-byte, anything larger raises `ValueError`. -/
def digitalSetupBuffers (sampleFormat : Int) (bufferSize : Nat)
    (acquireNoise : Bool) : Except DwfError DigitalBuffers :=
  let mkNoise : Option (List Nat) :=
    if acquireNoise then some (List.replicate bufferSize 0) else none
  if sampleFormat ≤ 8 then
    Except.ok ⟨1, List.replicate bufferSize 0, mkNoise⟩
  else if sampleFormat ≤ 16 then
    Except.ok ⟨2, List.replicate bufferSize 0, mkNoise⟩
  else if sampleFormat ≤ 32 then
    Except.ok ⟨4, List.replicate bufferSize 0, mkNoise⟩
  else
    Except.error DwfError.invalidSampleFormat

/-- `DigitalRecorder._setup_recording` seen from its caller: with a
positive capacity (`trigger.prefill + trigger.position`) it constructs
the channel buffers (possibly failing on the sample format); with
capacity zero it allocates nothing and the recorder stays unarmed
(`none`). -/
def digitalSetupRecording (sampleFormat : Int) (capacity : Nat)
    (acquireNoise : Bool) : Except DwfError (Option DigitalBuffers) :=
  if 0 < capacity then
    (digitalSetupBuffers sampleFormat capacity acquireNoise).map some
  else
    Except.ok none

/-! ### Basic lemmas about the ring-buffer operations -/

theorem normalizeRingBuffer_eq_rot (buffer : List α) (index : Nat) :
    normalizeRingBuffer buffer index = buffer.drop index ++ buffer.take index := by
  unfold normalizeRingBuffer
  split
  · simp [*]
  · rfl

theorem normalizeRingBuffer_length (buffer : List α) (index : Nat) :
    (normalizeRingBuffer buffer index).length = buffer.length := by
  rw [normalizeRingBuffer_eq_rot]
  simp
  omega

theorem writeChunk_nil (buffer : List α) (index : Nat) :
    writeChunk buffer index [] = buffer := by
  simp [writeChunk, List.take_append_drop]

theorem writeChunk_cons (buffer : List α) (index : Nat) (x : α) (chunk : List α)
    (h : index < buffer.length) :
    writeChunk buffer index (x :: chunk) =
      writeChunk (buffer.set index x) (index + 1) chunk := by
  have hlen : (buffer.take index).length = index := by
    rw [List.length_take]
    omega
  rw [writeChunk, writeChunk, List.set_eq_take_cons_drop x h]
  have htake : (buffer.take index ++ x :: buffer.drop (index + 1)).take (index + 1) =
      buffer.take index ++ [x] := by
    have h1 : index + 1 = (buffer.take index).length + 1 := by omega
    rw [h1, List.take_append 1]
    rfl
  have hdrop : (buffer.take index ++ x :: buffer.drop (index + 1)).drop
      (index + 1 + chunk.length) = buffer.drop (index + 1 + chunk.length) := by
    have h1 : index + 1 + chunk.length = (buffer.take index).length + (1 + chunk.length) := by
      omega
    rw [h1, List.drop_append (1 + chunk.length)]
    have h2 : 1 + chunk.length = chunk.length + 1 := by omega
    rw [h2, List.drop_succ_cons, List.drop_drop]
    congr 1
    omega
  rw [htake, hdrop]
  have h2 : index + (x :: chunk).length = index + 1 + chunk.length := by
    simp
    omega
  rw [h2]
  simp

theorem cyclicWrite_length (capacity : Nat) (buffer : List α) (start : Nat)
    (data : List α) : (cyclicWrite capacity buffer start data).length = buffer.length := by
  induction data generalizing buffer start with
  | nil => rfl
  | cons x rest ih =>
    rw [cyclicWrite, ih]
    simp

theorem cyclicWrite_append (capacity : Nat) (buffer : List α) (start : Nat)
    (c d : List α) :
    cyclicWrite capacity buffer start (c ++ d) =
      cyclicWrite capacity (cyclicWrite capacity buffer start c) (start + c.length) d := by
  induction c generalizing buffer start with
  | nil => simp [cyclicWrite]
  | cons x rest ih =>
    rw [List.cons_append, cyclicWrite, cyclicWrite, ih]
    congr 1
    simp
    omega

theorem cyclicWrite_congr_start (capacity : Nat) (buffer : List α) (s t : Nat)
    (data : List α) (h : s % capacity = t % capacity) :
    cyclicWrite capacity buffer s data = cyclicWrite capacity buffer t data := by
  induction data generalizing buffer s t with
  | nil => rfl
  | cons x rest ih =>
    rw [cyclicWrite, cyclicWrite, h]
    exact ih _ _ _ (by rw [Nat.add_mod s, Nat.add_mod t, h])

theorem writeChunk_eq_cyclicWrite (capacity : Nat) (buffer : List α) (index : Nat)
    (chunk : List α) (hb : buffer.length = capacity)
    (h : index + chunk.length ≤ capacity) :
    writeChunk buffer index chunk = cyclicWrite capacity buffer index chunk := by
  induction chunk generalizing buffer index with
  | nil => rw [writeChunk_nil]; rfl
  | cons x rest ih =>
    have hidx : index < capacity := by
      simp at h
      omega
    rw [writeChunk_cons buffer index x rest (by omega), cyclicWrite,
      Nat.mod_eq_of_lt hidx]
    exact ih _ _ (by simp [hb]) (by simp at h ⊢; omega)

theorem commitChunksAux_nil (capacity fuel : Nat) (buffer : List α) (index : Nat) :
    commitChunksAux capacity fuel buffer index [] = (buffer, index) := by
  cases fuel with
  | zero => rfl
  | succ fuel => simp [commitChunksAux]

/-- The chunked commit loop equals the pointwise cyclic write and moves
the cursor by the number of committed samples, modulo the capacity.
The hypotheses are the loop's entry invariant: the cursor was reduced
modulo a positive buffer size and the buffer has that size. -/
theorem commitChunksAux_spec (capacity : Nat) (fuel : Nat) (buffer : List α)
    (index : Nat) (data : List α) (hfuel : data.length ≤ fuel)
    (hb : buffer.length = capacity) (hidx : index < capacity) :
    commitChunksAux capacity fuel buffer index data =
      (cyclicWrite capacity buffer index data, (index + data.length) % capacity) := by
  induction fuel generalizing buffer index data with
  | zero =>
    have : data = [] := List.length_eq_zero.mp (by omega)
    subst this
    simp [commitChunksAux, cyclicWrite, Nat.mod_eq_of_lt hidx]
  | succ fuel ih =>
    rw [commitChunksAux]
    by_cases hdata : data.length = 0
    · have : data = [] := List.length_eq_zero.mp hdata
      subst this
      simp [cyclicWrite, Nat.mod_eq_of_lt hidx]
    · have hguard : ¬(data.length = 0 ∨ capacity ≤ index) := by
        push_neg
        exact ⟨hdata, hidx⟩
      rw [if_neg hguard]
      by_cases hwrap : capacity < index + data.length
      · -- the copy is clipped at the physical end of the buffer
        rw [if_pos hwrap]
        have hchunk : index + (capacity - index) = capacity := by omega
        have hrest : (data.drop (capacity - index)).length ≤ fuel := by
          simp
          omega
        have hb2 : (writeChunk buffer index (data.take (capacity - index))).length
            = capacity := by
          rw [writeChunk_eq_cyclicWrite capacity _ _ _ hb (by simp; omega),
            cyclicWrite_length, hb]
        rw [ih _ _ _ hrest hb2 (by rw [hchunk, Nat.mod_self]; omega)]
        simp only [Prod.mk.injEq]
        constructor
        · rw [writeChunk_eq_cyclicWrite capacity _ _ _ hb (by simp; omega)]
          conv_rhs => rw [← List.take_append_drop (capacity - index) data]
          rw [cyclicWrite_append]
          apply cyclicWrite_congr_start
          rw [List.length_take]
          have h4 : index + min (capacity - index) data.length = capacity := by omega
          rw [hchunk, h4, Nat.mod_self, Nat.zero_mod]
        · rw [hchunk, Nat.mod_self, List.length_drop]
          have h3 : index + data.length = capacity + (data.length - (capacity - index)) := by
            omega
          rw [h3, Nat.add_mod_left]
          simp
      · -- the whole remainder fits without wrapping
        rw [if_neg hwrap]
        dsimp only
        rw [List.take_length, List.drop_length, commitChunksAux_nil]
        rw [writeChunk_eq_cyclicWrite capacity _ _ _ hb (by omega)]

theorem commitChunks_spec (capacity : Nat) (buffer : List α) (index : Nat)
    (data : List α) (hb : buffer.length = capacity) (hidx : index < capacity) :
    commitChunks capacity buffer index data =
      (cyclicWrite capacity buffer index data, (index + data.length) % capacity) :=
  commitChunksAux_spec capacity data.length buffer index data (le_refl _) hb hidx

theorem add_mod_ne_self (s k capacity : Nat) (h1 : 0 < k) (h2 : k < capacity) :
    (s + k) % capacity ≠ s % capacity := by
  intro h
  have h3 : s + k ≡ s + 0 [MOD capacity] := by simpa [Nat.ModEq] using h
  have h4 : k ≡ 0 [MOD capacity] := Nat.ModEq.add_left_cancel' s h3
  have h5 : k % capacity = 0 := by simpa [Nat.ModEq] using h4
  rw [Nat.mod_eq_of_lt h2] at h5
  omega

theorem cyclicWrite_getD_untouched (capacity : Nat) (buffer : List α) (start : Nat)
    (data : List α) (i : Nat) (z : α)
    (h : ∀ j < data.length, i ≠ (start + j) % capacity) :
    (cyclicWrite capacity buffer start data).getD i z = buffer.getD i z := by
  induction data generalizing buffer start with
  | nil => rfl
  | cons x rest ih =>
    rw [cyclicWrite]
    have h0 : i ≠ start % capacity := by
      have := h 0 (by simp)
      simpa using this
    rw [ih _ (start + 1) ?hrest]
    · simp [List.getD_eq_getElem?_getD, List.getElem?_set_ne (Ne.symm h0)]
    case hrest =>
      intro j hj
      have hmem := h (j + 1) (by simp; omega)
      have harith : start + (j + 1) = start + 1 + j := by omega
      rwa [harith] at hmem

theorem cyclicWrite_getD_written (capacity : Nat) (buffer : List α) (start : Nat)
    (data : List α) (j : Nat) (z : α) (hb : buffer.length = capacity)
    (hd : data.length ≤ capacity) (hj : j < data.length) :
    (cyclicWrite capacity buffer start data).getD ((start + j) % capacity) z =
      data.getD j z := by
  induction data generalizing buffer start j with
  | nil => simp at hj
  | cons x rest ih =>
    rw [cyclicWrite]
    cases j with
    | zero =>
      have hcap : 0 < capacity := by
        simp at hd
        omega
      rw [Nat.add_zero]
      rw [cyclicWrite_getD_untouched capacity _ _ _ _ _ ?hfresh]
      · have hlt : start % capacity < buffer.length := by
          rw [hb]
          exact Nat.mod_lt _ hcap
        simp [List.getD_eq_getElem?_getD, List.getElem?_set_eq_of_lt x hlt]
      case hfresh =>
        intro j hjr heq
        have hk2 : 1 + j < capacity := by
          simp at hd
          omega
        have harith2 : start + (1 + j) = start + 1 + j := by omega
        apply add_mod_ne_self start (1 + j) capacity (by omega) hk2
        rw [harith2, ← heq]
        simp
    | succ j =>
      have harith : start + (j + 1) = start + 1 + j := by omega
      rw [harith, List.getD_cons_succ]
      exact ih _ (start + 1) j (by simp [hb]) (by simp at hd; omega)
        (by simp at hj; omega)

/-! ### Per-cycle lemmas about `_process_recording` -/

theorem processRecording_counters (s : RecorderState α) (r : PollReport α) :
    (processRecording s r).1.totalSamples = s.totalSamples + r.lost + r.available.length ∧
    (processRecording s r).1.lostSamples = s.lostSamples + r.lost ∧
    (processRecording s r).1.corruptedSamples = s.corruptedSamples + r.corrupted ∧
    (processRecording s r).1.status = r.status ∧
    (processRecording s r).1.requestedSamples = s.requestedSamples ∧
    (processRecording s r).1.bufferSize = s.bufferSize ∧
    (processRecording s r).1.isSetup = s.isSetup :=
  ⟨rfl, rfl, rfl, rfl, rfl, rfl, rfl⟩

theorem processRecording_buffer (s : RecorderState α) (r : PollReport α)
    (hb : s.dataBuffer.length = s.bufferSize) (hidx : s.bufferIndex < s.bufferSize) :
    (processRecording s r).1.dataBuffer =
      cyclicWrite s.bufferSize s.dataBuffer ((s.bufferIndex + r.lost) % s.bufferSize)
        r.available ∧
    (processRecording s r).1.bufferIndex =
      (s.bufferIndex + r.lost + r.available.length) % s.bufferSize := by
  have hcap : 0 < s.bufferSize := by omega
  have hstart : (s.bufferIndex + r.lost) % s.bufferSize < s.bufferSize :=
    Nat.mod_lt _ hcap
  have hc := commitChunks_spec s.bufferSize s.dataBuffer
    ((s.bufferIndex + r.lost) % s.bufferSize) r.available hb hstart
  constructor
  · show (commitChunks s.bufferSize s.dataBuffer
      ((s.bufferIndex + r.lost) % s.bufferSize) r.available).1 = _
    rw [hc]
  · show (commitChunks s.bufferSize s.dataBuffer
      ((s.bufferIndex + r.lost) % s.bufferSize) r.available).2 = _
    rw [hc]
    simp [Nat.mod_add_mod]

theorem processRecording_noiseBuffer_some (s : RecorderState α) (r : PollReport α)
    (nb : List α) (hnb : s.noiseBuffer = some nb) (hb : nb.length = s.bufferSize)
    (hidx : s.bufferIndex < s.bufferSize) :
    (processRecording s r).1.noiseBuffer =
      some (cyclicWrite s.bufferSize nb ((s.bufferIndex + r.lost) % s.bufferSize)
        r.noise) := by
  have hcap : 0 < s.bufferSize := by omega
  have hstart : (s.bufferIndex + r.lost) % s.bufferSize < s.bufferSize :=
    Nat.mod_lt _ hcap
  show (match s.noiseBuffer with
    | some nb => some (commitChunks s.bufferSize nb
        ((s.bufferIndex + r.lost) % s.bufferSize) r.noise).1
    | none => none) = _
  rw [hnb]
  show some (commitChunks s.bufferSize nb
    ((s.bufferIndex + r.lost) % s.bufferSize) r.noise).1 = _
  rw [commitChunks_spec s.bufferSize nb _ r.noise hb hstart]

theorem processRecording_noiseBuffer_none (s : RecorderState α) (r : PollReport α)
    (hnb : s.noiseBuffer = none) :
    (processRecording s r).1.noiseBuffer = none := by
  show (match s.noiseBuffer with
    | some nb => some (commitChunks s.bufferSize nb
        ((s.bufferIndex + r.lost) % s.bufferSize) r.noise).1
    | none => none) = _
  rw [hnb]

theorem processRecording_good (capacity : Nat) (s : RecorderState α)
    (r : PollReport α) (hs : GoodState capacity s) :
    GoodState capacity (processRecording s r).1 := by
  obtain ⟨hsize, hb, hidx, hnoise⟩ := hs
  have hb2 : s.dataBuffer.length = s.bufferSize := by omega
  have hidx2 : s.bufferIndex < s.bufferSize := by omega
  obtain ⟨hbuf, hcursor⟩ := processRecording_buffer s r hb2 hidx2
  refine ⟨(processRecording_counters s r).2.2.2.2.2.1.trans hsize, ?_, ?_, ?_⟩
  · rw [hbuf, cyclicWrite_length]
    omega
  · rw [hcursor, hsize]
    exact Nat.mod_lt _ (by omega)
  · intro nb hnb
    cases hcase : s.noiseBuffer with
    | none => rw [processRecording_noiseBuffer_none s r hcase] at hnb; cases hnb
    | some nb0 =>
      rw [processRecording_noiseBuffer_some s r nb0 hcase
        (by rw [hnoise nb0 hcase]; omega) hidx2] at hnb
      have := hnoise nb0 hcase
      cases hnb
      rw [cyclicWrite_length]
      omega

/-! ### The chronological-window invariant of the ring buffer -/

theorem drop_one_shift (L M : List α) (n : Nat) (hL : L ≠ []) :
    (L ++ M).drop (n + 1) = (L.drop 1 ++ M).drop n := by
  cases L with
  | nil => cases hL rfl
  | cons a L => simp

/-- Writing one sample at the cursor and advancing it shifts the
chronological window by one: the oldest retained sample falls out and
the new sample enters at the young end. -/
theorem rotation_set (buffer : List α) (idx : Nat) (x : α) (h : idx < buffer.length) :
    (buffer.set idx x).drop ((idx + 1) % buffer.length) ++
      (buffer.set idx x).take ((idx + 1) % buffer.length) =
    (buffer.drop idx ++ buffer.take idx).drop 1 ++ [x] := by
  have hset := List.set_eq_take_cons_drop x h
  have hlen : (buffer.take idx).length = idx := by
    rw [List.length_take]
    omega
  have hrhs : (buffer.drop idx ++ buffer.take idx).drop 1 =
      buffer.drop (idx + 1) ++ buffer.take idx := by
    rw [List.drop_eq_getElem_cons h, List.cons_append, List.drop_one, List.tail_cons]
  rw [hrhs]
  rcases Nat.lt_or_ge (idx + 1) buffer.length with hcase | hcase
  · rw [Nat.mod_eq_of_lt hcase, hset]
    have hdrop : (buffer.take idx ++ x :: buffer.drop (idx + 1)).drop (idx + 1) =
        buffer.drop (idx + 1) := by
      have h1 : idx + 1 = (buffer.take idx).length + 1 := by omega
      rw [h1, List.drop_append 1]
      rfl
    have htake : (buffer.take idx ++ x :: buffer.drop (idx + 1)).take (idx + 1) =
        buffer.take idx ++ [x] := by
      have h1 : idx + 1 = (buffer.take idx).length + 1 := by omega
      rw [h1, List.take_append 1]
      rfl
    rw [hdrop, htake]
    simp
  · have hidx : idx + 1 = buffer.length := by omega
    have hmod : (idx + 1) % buffer.length = 0 := by
      rw [hidx, Nat.mod_self]
    rw [hmod, hset]
    have hdropall : buffer.drop (idx + 1) = [] := by
      apply List.drop_eq_nil_of_le
      omega
    simp [hdropall]

/-! ### Run-level lemmas -/

theorem recordRun_nil (s : RecorderState α) : recordRun s [] = s := rfl

theorem recordRun_cons (s : RecorderState α) (r : PollReport α)
    (reports : List (PollReport α)) :
    recordRun s (r :: reports) = recordRun (processRecording s r).1 reports := rfl

theorem recordRun_append (s : RecorderState α) (a b : List (PollReport α)) :
    recordRun s (a ++ b) = recordRun (recordRun s a) b :=
  List.foldl_append _ _ _ _

theorem streamRun_nil (acquireNoise : Bool) (s : RecorderState α) :
    streamRun acquireNoise s [] = s := rfl

theorem streamRun_cons (acquireNoise : Bool) (s : RecorderState α) (r : PollReport α)
    (reports : List (PollReport α)) :
    streamRun acquireNoise s (r :: reports) =
      streamRun acquireNoise (updateStreaming acquireNoise s r).1 reports := rfl

theorem streamRun_append (acquireNoise : Bool) (s : RecorderState α)
    (a b : List (PollReport α)) :
    streamRun acquireNoise s (a ++ b) = streamRun acquireNoise (streamRun acquireNoise s a) b :=
  List.foldl_append _ _ _ _

theorem recordRun_good (capacity : Nat) (s : RecorderState α)
    (reports : List (PollReport α)) (hs : GoodState capacity s) :
    GoodState capacity (recordRun s reports) := by
  induction reports generalizing s with
  | nil => exact hs
  | cons r rs ih => exact ih _ (processRecording_good capacity s r hs)

theorem setupRecording_good (zero : α) (capacity : Nat) (acquireNoise : Bool)
    (s : RecorderState α) (hcap : 0 < capacity) :
    GoodState capacity (setupRecording zero capacity acquireNoise s) := by
  unfold setupRecording GoodState
  rw [if_pos hcap]
  refine ⟨rfl, by simp, hcap, ?_⟩
  intro nb hnb
  simp only at hnb
  by_cases hn : acquireNoise
  · rw [if_pos hn] at hnb
    cases hnb
    simp
  · rw [if_neg hn] at hnb
    cases hnb

/-- A run of one-element commits maintains the chronological window:
reading the ring buffer from the cursor onwards, wrapping around,
always yields the last `capacity` elements of the initial window
followed by all committed samples. -/
theorem recordRun_oneElement (capacity : Nat) (xs : List α) (s : RecorderState α)
    (hs : GoodState capacity s) :
    (recordRun s (oneElementReports xs)).dataBuffer.drop
        (recordRun s (oneElementReports xs)).bufferIndex ++
      (recordRun s (oneElementReports xs)).dataBuffer.take
        (recordRun s (oneElementReports xs)).bufferIndex =
    ((s.dataBuffer.drop s.bufferIndex ++ s.dataBuffer.take s.bufferIndex) ++ xs).drop
      xs.length := by
  induction xs generalizing s with
  | nil => simp [oneElementReports, recordRun_nil]
  | cons x rest ih =>
    obtain ⟨hsize, hb, hidx, hnz⟩ := hs
    have hb2 : s.dataBuffer.length = s.bufferSize := by omega
    have hidx2 : s.bufferIndex < s.bufferSize := by omega
    have hstep := processRecording_buffer s (mkReport Status.running [x] 0 0) hb2 hidx2
    set s2 := (processRecording s (mkReport Status.running [x] 0 0)).1 with hs2
    have hbuf : s2.dataBuffer = s.dataBuffer.set s.bufferIndex x := by
      rw [hstep.1]
      show (s.dataBuffer.set (((s.bufferIndex + 0) % s.bufferSize) % s.bufferSize) x) = _
      congr 1
      rw [Nat.add_zero, Nat.mod_eq_of_lt hidx2, Nat.mod_eq_of_lt hidx2]
    have hcursor : s2.bufferIndex = (s.bufferIndex + 1) % s.bufferSize := by
      rw [hstep.2]
      congr 1
    have hrot : s2.dataBuffer.drop s2.bufferIndex ++ s2.dataBuffer.take s2.bufferIndex =
        (s.dataBuffer.drop s.bufferIndex ++ s.dataBuffer.take s.bufferIndex).drop 1 ++
          [x] := by
      rw [hbuf, hcursor, ← hb2]
      exact rotation_set s.dataBuffer s.bufferIndex x (by omega)
    have hgood2 : GoodState capacity s2 :=
      processRecording_good capacity s _ ⟨hsize, by omega, by omega, hnz⟩
    have hrun : recordRun s (oneElementReports (x :: rest)) =
        recordRun s2 (oneElementReports rest) := by
      rw [oneElementReports, List.map_cons, recordRun_cons]
      rfl
    have hne : s.dataBuffer.drop s.bufferIndex ++ s.dataBuffer.take s.bufferIndex ≠ [] := by
      intro hnil
      have hlen0 := congrArg List.length hnil
      simp at hlen0
      omega
    rw [hrun, ih s2 hgood2, hrot, List.length_cons,
      drop_one_shift (s.dataBuffer.drop s.bufferIndex ++ s.dataBuffer.take s.bufferIndex)
        (x :: rest) rest.length hne,
      List.append_assoc]
    rfl

/-! ### Field equations for the two step functions -/

theorem processRecording_totalSamples (s : RecorderState α) (r : PollReport α) :
    (processRecording s r).1.totalSamples = s.totalSamples + r.lost + r.available.length :=
  rfl

theorem processRecording_lostSamples (s : RecorderState α) (r : PollReport α) :
    (processRecording s r).1.lostSamples = s.lostSamples + r.lost := rfl

theorem processRecording_corruptedSamples (s : RecorderState α) (r : PollReport α) :
    (processRecording s r).1.corruptedSamples = s.corruptedSamples + r.corrupted := rfl

theorem updateStreaming_totalSamples (acquireNoise : Bool) (s : RecorderState α)
    (r : PollReport α) :
    (updateStreaming acquireNoise s r).1.totalSamples =
      s.totalSamples + r.lost + r.available.length := rfl

theorem updateStreaming_lostSamples (acquireNoise : Bool) (s : RecorderState α)
    (r : PollReport α) :
    (updateStreaming acquireNoise s r).1.lostSamples = s.lostSamples + r.lost := rfl

theorem updateStreaming_corruptedSamples (acquireNoise : Bool) (s : RecorderState α)
    (r : PollReport α) :
    (updateStreaming acquireNoise s r).1.corruptedSamples =
      s.corruptedSamples + r.corrupted := rfl

/-! ### Claim C1 -/

/-- C1: Linearization correctness.  `_normalize_ring_buffer` applied at
cursor `c` returns the buffer unchanged when `c = 0` and otherwise the
concatenation of `buffer[c:]` and `buffer[:c]`; it is non-mutating (the
recorder's ring buffer is unchanged by finalization, the published
samples being a separate list); and for any sequence of one-element
commits of total length at least the capacity, the finalized output is
exactly the last `capacity` committed elements, oldest first. -/
theorem C1_linearize_correct (capacity : Nat) (zero : α) (xs : List α)
    (buffer : List α) (index : Nat) (s : RecorderState α)
    (hcap : 0 < capacity) (hlen : capacity ≤ xs.length) :
    (index = 0 → normalizeRingBuffer buffer index = buffer) ∧
    (index ≠ 0 →
      normalizeRingBuffer buffer index = buffer.drop index ++ buffer.take index) ∧
    (finalizeRecording s).dataBuffer = s.dataBuffer ∧
    (finalizeRecording
        (recordRun (setupRecording zero capacity false initRecorder)
          (oneElementReports xs))).dataSamples =
      some (xs.drop (xs.length - capacity)) := by
  refine ⟨fun h => by rw [normalizeRingBuffer, if_pos h],
    fun h => by rw [normalizeRingBuffer, if_neg h], rfl, ?_⟩
  have hgood : GoodState capacity
      (setupRecording zero capacity false (initRecorder (α := α))) :=
    setupRecording_good zero capacity false initRecorder hcap
  have hkey := recordRun_oneElement capacity xs _ hgood
  have hsetup_buf : (setupRecording zero capacity false (initRecorder (α := α))).dataBuffer =
      List.replicate capacity zero := by
    simp [setupRecording, hcap]
  have hsetup_idx :
      (setupRecording zero capacity false (initRecorder (α := α))).bufferIndex = 0 := by
    simp [setupRecording, hcap, initRecorder]
  rw [hsetup_buf, hsetup_idx] at hkey
  simp only [List.drop_zero, List.take_zero, List.append_nil] at hkey
  have hwindow : ((List.replicate capacity zero : List α) ++ xs).drop xs.length =
      xs.drop (xs.length - capacity) := by
    have h1 : xs.length =
        (List.replicate capacity (zero : α)).length + (xs.length - capacity) := by
      simp
      omega
    conv_lhs => rw [h1]
    exact List.drop_append _
  show some (normalizeRingBuffer
      (recordRun (setupRecording zero capacity false initRecorder)
        (oneElementReports xs)).dataBuffer
      (recordRun (setupRecording zero capacity false initRecorder)
        (oneElementReports xs)).bufferIndex) = _
  rw [normalizeRingBuffer_eq_rot, hkey, hwindow]

/-- Witness for C1 at capacity 2 and commit sequence `[1, 2, 3]`. -/
theorem C1_linearize_correct_witness :
    0 < 2 ∧ 2 ≤ ([1, 2, 3] : List Nat).length ∧
      (finalizeRecording (recordRun (setupRecording 0 2 false initRecorder)
        (oneElementReports [1, 2, 3]))).dataSamples = some [2, 3] :=
  ⟨by decide, by decide, by
    have h := (C1_linearize_correct 2 0 [1, 2, 3] [] 0 initRecorder (by decide)
      (by decide)).2.2.2
    simpa using h⟩

/-! ### Claim C2: the commit pieces and cursor placement -/

theorem commitPiecesAux_no_wrap (capacity fuel : Nat) :
    ∀ (index : Nat) (data : List α), index < capacity →
      ∀ p ∈ commitPiecesAux capacity fuel index data, p.1 + p.2.length ≤ capacity := by
  induction fuel with
  | zero =>
    intro index data hidx p hp
    simp [commitPiecesAux] at hp
  | succ fuel ih =>
    intro index data hidx p hp
    rw [commitPiecesAux] at hp
    by_cases hguard : data.length = 0 ∨ capacity ≤ index
    · rw [if_pos hguard] at hp
      simp at hp
    · rw [if_neg hguard] at hp
      dsimp only at hp
      rcases List.mem_cons.mp hp with hhead | htail
      · subst hhead
        by_cases hwrap : capacity < index + data.length
        · rw [if_pos hwrap]
          simp
          omega
        · rw [if_neg hwrap]
          simp
          omega
      · exact ih _ _ (Nat.mod_lt _ (by omega)) p htail

theorem commitPiecesAux_join (capacity fuel : Nat) :
    ∀ (index : Nat) (data : List α), data.length ≤ fuel → index < capacity →
      ((commitPiecesAux capacity fuel index data).map Prod.snd).flatten = data := by
  induction fuel with
  | zero =>
    intro index data hfuel hidx
    have : data = [] := List.length_eq_zero.mp (by omega)
    subst this
    rfl
  | succ fuel ih =>
    intro index data hfuel hidx
    rw [commitPiecesAux]
    by_cases hguard : data.length = 0 ∨ capacity ≤ index
    · have hdata : data = [] := by
        rcases hguard with h | h
        · exact List.length_eq_zero.mp h
        · omega
      subst hdata
      rw [if_pos hguard]
      rfl
    · rw [if_neg hguard]
      dsimp only
      push_neg at hguard
      have hchunk1 : 1 ≤ if capacity < index + data.length then capacity - index
          else data.length := by
        split <;> omega
      rw [List.map_cons, List.flatten_cons]
      dsimp only
      rw [ih _ _ (by simp; omega) (Nat.mod_lt _ (by omega))]
      exact List.take_append_drop _ data

theorem commitChunksAux_eq_pieces (capacity fuel : Nat) :
    ∀ (buffer : List α) (index : Nat) (data : List α),
      (commitChunksAux capacity fuel buffer index data).1 =
        (commitPiecesAux capacity fuel index data).foldl
          (fun b p => writeChunk b p.1 p.2) buffer := by
  induction fuel with
  | zero =>
    intro buffer index data
    rfl
  | succ fuel ih =>
    intro buffer index data
    rw [commitChunksAux, commitPiecesAux]
    by_cases hguard : data.length = 0 ∨ capacity ≤ index
    · rw [if_pos hguard, if_pos hguard]
      rfl
    · rw [if_neg hguard, if_neg hguard]
      dsimp only
      rw [ih]
      rfl

/-- C2: Cursor advance under loss.  A poll cycle with previous cursor
`p` and report `(available, lost, corrupted)` leaves the cursor at
`(p + lost + available) % capacity`; the available samples occupy
slots `(p + lost) % capacity, (p + lost + 1) % capacity, ...` — not
slots starting at `p` — while every other slot (the skipped lost slots
included) is unchanged; and the copy is realized as a sequence of
contiguous pieces none of which crosses the physical buffer end, whose
concatenation is exactly the available data. -/
theorem C2_cursor_advance_under_loss (capacity : Nat) (s : RecorderState α)
    (r : PollReport α) (z : α)
    (hsize : s.bufferSize = capacity)
    (hb : s.dataBuffer.length = capacity)
    (hidx : s.bufferIndex < capacity)
    (hav : r.available.length ≤ capacity) :
    (processRecording s r).1.bufferIndex =
      (s.bufferIndex + r.lost + r.available.length) % capacity ∧
    (∀ j, j < r.available.length →
      (processRecording s r).1.dataBuffer.getD
          ((s.bufferIndex + r.lost + j) % capacity) z = r.available.getD j z) ∧
    (∀ i, i < capacity →
      (∀ j, j < r.available.length → i ≠ (s.bufferIndex + r.lost + j) % capacity) →
      (processRecording s r).1.dataBuffer.getD i z = s.dataBuffer.getD i z) ∧
    (processRecording s r).1.dataBuffer =
      (commitPieces capacity ((s.bufferIndex + r.lost) % capacity) r.available).foldl
        (fun b p => writeChunk b p.1 p.2) s.dataBuffer ∧
    (∀ p ∈ commitPieces capacity ((s.bufferIndex + r.lost) % capacity) r.available,
      p.1 + p.2.length ≤ capacity) ∧
    ((commitPieces capacity ((s.bufferIndex + r.lost) % capacity) r.available).map
      Prod.snd).flatten = r.available := by
  subst hsize
  obtain ⟨hbuf, hcursor⟩ := processRecording_buffer s r hb hidx
  have hstartlt : (s.bufferIndex + r.lost) % s.bufferSize < s.bufferSize :=
    Nat.mod_lt _ (by omega)
  refine ⟨hcursor, ?_, ?_, ?_, ?_, ?_⟩
  · intro j hj
    rw [hbuf]
    have hpos : (s.bufferIndex + r.lost + j) % s.bufferSize =
        ((s.bufferIndex + r.lost) % s.bufferSize + j) % s.bufferSize := by
      rw [Nat.mod_add_mod]
    rw [hpos]
    exact cyclicWrite_getD_written _ _ _ _ j z hb hav hj
  · intro i hi hne
    rw [hbuf]
    apply cyclicWrite_getD_untouched
    intro j hj
    rw [Nat.mod_add_mod]
    exact hne j hj
  · rw [hbuf, commitPieces, ← commitChunksAux_eq_pieces]
    have hc := commitChunksAux_spec s.bufferSize r.available.length s.dataBuffer
      ((s.bufferIndex + r.lost) % s.bufferSize) r.available (le_refl _) hb hstartlt
    rw [hc]
  · exact commitPiecesAux_no_wrap _ _ _ _ hstartlt
  · exact commitPiecesAux_join _ _ _ _ (le_refl _) hstartlt

/-- Witness for C2: capacity 4, previous cursor 2, report with 2
available samples and 3 lost slots; the samples land at slots
`(2 + 3) % 4 = 1` and `2`, and the cursor ends at `(2 + 3 + 2) % 4 = 3`. -/
theorem C2_cursor_advance_under_loss_witness :
    ({ initRecorder with bufferSize := 4, dataBuffer := [9, 9, 9, 9], bufferIndex := 2 } : RecorderState Nat).bufferSize = 4 ∧
    (processRecording
        ({ initRecorder with bufferSize := 4, dataBuffer := [9, 9, 9, 9], bufferIndex := 2 } : RecorderState Nat)
        (mkReport Status.running [10, 11] 3 0)).1.bufferIndex = (2 + 3 + 2) % 4 ∧
    (∀ j, j < ([10, 11] : List Nat).length →
      (processRecording
          ({ initRecorder with bufferSize := 4, dataBuffer := [9, 9, 9, 9], bufferIndex := 2 } : RecorderState Nat)
          (mkReport Status.running [10, 11] 3 0)).1.dataBuffer.getD
        ((2 + 3 + j) % 4) 0 = ([10, 11] : List Nat).getD j 0) := by
  have h := C2_cursor_advance_under_loss 4
    ({ initRecorder with bufferSize := 4, dataBuffer := [9, 9, 9, 9], bufferIndex := 2 } : RecorderState Nat)
    (mkReport Status.running [10, 11] 3 0) 0 rfl (by decide) (by decide) (by decide)
  exact ⟨rfl, h.1, h.2.1⟩

/-! ### Claim C3: the lossy-recording scenario -/

set_option maxRecDepth 40000 in
/-- C3 counterexample: in the claimed scenario (capacity 100, cycle 1
reports 50 available and 10 lost, cycle 2 reports 40 available and is
Done), the ten stale never-written slots do NOT occupy positions 50–59
of the pre-linearized buffer: position 50 holds the 41st committed
sample (value 41 here, with the buffer zero-initialized and all
committed samples nonzero), because the cursor skips the lost slots
BEFORE the available samples are committed, so the stale slots are
positions 0–9. -/
theorem C3_lossy_scenario_counterexample :
    ((recordRun (setupRecording (0 : Nat) 100 false initRecorder)
        [mkReport Status.running (List.range' 1 50) 10 0,
          mkReport Status.done (List.range' 51 40) 0 0]).dataBuffer.getD 50 0 = 41 ∧
      (recordRun (setupRecording (0 : Nat) 100 false initRecorder)
        [mkReport Status.running (List.range' 1 50) 10 0,
          mkReport Status.done (List.range' 51 40) 0 0]).dataBuffer.getD 50 0 ≠ 0) ∧
    (recordRun (setupRecording (0 : Nat) 100 false initRecorder)
        [mkReport Status.running (List.range' 1 50) 10 0,
          mkReport Status.done (List.range' 51 40) 0 0]).dataBuffer.getD 0 0 = 0 := by
  decide

set_option maxRecDepth 40000 in
/-- C3 amended: same scenario, with the stale slots where the code
actually leaves them.  The session ends with `total_samples = 100` and
`lost_samples = 10`; the ten stale (never-written, zero-initialized)
slots occupy positions 0–9 of the pre-linearized buffer; the final
cursor is 0, so `linearize()` is the identity and exposes them at
chronological offsets 0–9 of the output. -/
theorem C3_lossy_scenario_amended :
    (recordRun (setupRecording (0 : Nat) 100 false initRecorder)
        [mkReport Status.running (List.range' 1 50) 10 0,
          mkReport Status.done (List.range' 51 40) 0 0]).totalSamples = 100 ∧
    (recordRun (setupRecording (0 : Nat) 100 false initRecorder)
        [mkReport Status.running (List.range' 1 50) 10 0,
          mkReport Status.done (List.range' 51 40) 0 0]).lostSamples = 10 ∧
    (recordRun (setupRecording (0 : Nat) 100 false initRecorder)
        [mkReport Status.running (List.range' 1 50) 10 0,
          mkReport Status.done (List.range' 51 40) 0 0]).bufferIndex = 0 ∧
    (recordRun (setupRecording (0 : Nat) 100 false initRecorder)
        [mkReport Status.running (List.range' 1 50) 10 0,
          mkReport Status.done (List.range' 51 40) 0 0]).dataBuffer =
      List.replicate 10 0 ++ List.range' 1 90 ∧
    (finalizeRecording (recordRun (setupRecording (0 : Nat) 100 false initRecorder)
        [mkReport Status.running (List.range' 1 50) 10 0,
          mkReport Status.done (List.range' 51 40) 0 0])).dataSamples =
      some (List.replicate 10 0 ++ List.range' 1 90) := by
  refine ⟨by decide, by decide, by decide, by decide, by decide⟩

/-! ### Claim C4: accounting -/

theorem recordRun_counters (s : RecorderState α) (reports : List (PollReport α)) :
    (recordRun s reports).totalSamples =
      s.totalSamples + (reports.map fun r => r.available.length + r.lost).sum ∧
    (recordRun s reports).lostSamples =
      s.lostSamples + (reports.map PollReport.lost).sum ∧
    (recordRun s reports).corruptedSamples =
      s.corruptedSamples + (reports.map PollReport.corrupted).sum := by
  induction reports generalizing s with
  | nil => simp [recordRun_nil]
  | cons r rs ih =>
    rw [recordRun_cons]
    obtain ⟨h1, h2, h3⟩ := ih (processRecording s r).1
    refine ⟨?_, ?_, ?_⟩
    · rw [h1, processRecording_totalSamples]
      simp
      omega
    · rw [h2, processRecording_lostSamples]
      simp [PollReport.lost]
      omega
    · rw [h3, processRecording_corruptedSamples]
      simp [PollReport.corrupted]
      omega

theorem streamRun_counters (acquireNoise : Bool) (s : RecorderState α)
    (reports : List (PollReport α)) :
    (streamRun acquireNoise s reports).totalSamples =
      s.totalSamples + (reports.map fun r => r.available.length + r.lost).sum ∧
    (streamRun acquireNoise s reports).lostSamples =
      s.lostSamples + (reports.map PollReport.lost).sum ∧
    (streamRun acquireNoise s reports).corruptedSamples =
      s.corruptedSamples + (reports.map PollReport.corrupted).sum := by
  induction reports generalizing s with
  | nil => simp [streamRun_nil]
  | cons r rs ih =>
    rw [streamRun_cons]
    obtain ⟨h1, h2, h3⟩ := ih (updateStreaming acquireNoise s r).1
    refine ⟨?_, ?_, ?_⟩
    · rw [h1, updateStreaming_totalSamples]
      simp
      omega
    · rw [h2, updateStreaming_lostSamples]
      simp [PollReport.lost]
      omega
    · rw [h3, updateStreaming_corruptedSamples]
      simp [PollReport.corrupted]
      omega

theorem take_map_sum_le (reports : List (PollReport α)) (f : PollReport α → Nat)
    (i : Nat) : ((reports.take i).map f).sum ≤ ((reports.take (i + 1)).map f).sum := by
  rw [List.take_succ]
  cases h : reports[i]? <;> simp

theorem sum_map_avail_lost_split (reports : List (PollReport α)) :
    (reports.map fun r => r.available.length + r.lost).sum =
      (reports.map fun r => r.available.length).sum +
        (reports.map PollReport.lost).sum := by
  induction reports with
  | nil => rfl
  | cons r rs ih =>
    simp [ih, PollReport.lost]
    omega

/-- C4: Accounting correctness and monotonicity.  Each poll cycle (in
both the bounded `_process_recording` and the streaming
`_update_streaming`) adds `lost + available` to `total_samples`,
`lost` to `lost_samples`, and `corrupted` to `corrupted_samples`;
starting from zeroed counters, after `i` cycles `total_samples` equals
the sum of `available_j + lost_j` over the first `i` cycles; and
`total_samples`, `lost_samples`, `corrupted_samples`, and the derived
`delivered = total_samples - lost_samples` are all non-decreasing from
each cycle to the next, in both modes. -/
theorem C4_accounting_monotone (s0 : RecorderState α)
    (reports : List (PollReport α)) (acquireNoise : Bool)
    (hz0 : s0.totalSamples = 0) (hz1 : s0.lostSamples = 0)
    (hz2 : s0.corruptedSamples = 0) :
    (∀ (s : RecorderState α) (r : PollReport α),
      (processRecording s r).1.totalSamples =
        s.totalSamples + (r.lost + r.available.length) ∧
      (processRecording s r).1.lostSamples = s.lostSamples + r.lost ∧
      (processRecording s r).1.corruptedSamples = s.corruptedSamples + r.corrupted ∧
      (updateStreaming acquireNoise s r).1.totalSamples =
        s.totalSamples + (r.lost + r.available.length) ∧
      (updateStreaming acquireNoise s r).1.lostSamples = s.lostSamples + r.lost ∧
      (updateStreaming acquireNoise s r).1.corruptedSamples =
        s.corruptedSamples + r.corrupted) ∧
    (∀ i, (recordRun s0 (reports.take i)).totalSamples =
      ((reports.take i).map fun r => r.available.length + r.lost).sum) ∧
    (∀ i,
      (recordRun s0 (reports.take i)).totalSamples ≤
        (recordRun s0 (reports.take (i + 1))).totalSamples ∧
      (recordRun s0 (reports.take i)).lostSamples ≤
        (recordRun s0 (reports.take (i + 1))).lostSamples ∧
      (recordRun s0 (reports.take i)).corruptedSamples ≤
        (recordRun s0 (reports.take (i + 1))).corruptedSamples ∧
      (recordRun s0 (reports.take i)).totalSamples -
          (recordRun s0 (reports.take i)).lostSamples ≤
        (recordRun s0 (reports.take (i + 1))).totalSamples -
          (recordRun s0 (reports.take (i + 1))).lostSamples) ∧
    (∀ i, (streamRun acquireNoise s0 (reports.take i)).totalSamples =
      ((reports.take i).map fun r => r.available.length + r.lost).sum) ∧
    (∀ i,
      (streamRun acquireNoise s0 (reports.take i)).totalSamples ≤
        (streamRun acquireNoise s0 (reports.take (i + 1))).totalSamples ∧
      (streamRun acquireNoise s0 (reports.take i)).lostSamples ≤
        (streamRun acquireNoise s0 (reports.take (i + 1))).lostSamples ∧
      (streamRun acquireNoise s0 (reports.take i)).corruptedSamples ≤
        (streamRun acquireNoise s0 (reports.take (i + 1))).corruptedSamples ∧
      (streamRun acquireNoise s0 (reports.take i)).totalSamples -
          (streamRun acquireNoise s0 (reports.take i)).lostSamples ≤
        (streamRun acquireNoise s0 (reports.take (i + 1))).totalSamples -
          (streamRun acquireNoise s0 (reports.take (i + 1))).lostSamples) := by
  refine ⟨?_, ?_, ?_, ?_, ?_⟩
  · intro s r
    refine ⟨?_, rfl, rfl, ?_, rfl, rfl⟩
    · rw [processRecording_totalSamples]
      omega
    · rw [updateStreaming_totalSamples]
      omega
  · intro i
    obtain ⟨h1, _, _⟩ := recordRun_counters s0 (reports.take i)
    omega
  · intro i
    obtain ⟨h1, h2, h3⟩ := recordRun_counters s0 (reports.take i)
    obtain ⟨h4, h5, h6⟩ := recordRun_counters s0 (reports.take (i + 1))
    have m1 := take_map_sum_le reports (fun r => r.available.length + r.lost) i
    have m2 := take_map_sum_le reports PollReport.lost i
    have m3 := take_map_sum_le reports PollReport.corrupted i
    have m4 := take_map_sum_le reports (fun r => r.available.length) i
    have s1 := sum_map_avail_lost_split (reports.take i)
    have s2 := sum_map_avail_lost_split (reports.take (i + 1))
    refine ⟨by omega, by omega, by omega, by omega⟩
  · intro i
    obtain ⟨h1, _, _⟩ := streamRun_counters acquireNoise s0 (reports.take i)
    omega
  · intro i
    obtain ⟨h1, h2, h3⟩ := streamRun_counters acquireNoise s0 (reports.take i)
    obtain ⟨h4, h5, h6⟩ := streamRun_counters acquireNoise s0 (reports.take (i + 1))
    have m1 := take_map_sum_le reports (fun r => r.available.length + r.lost) i
    have m2 := take_map_sum_le reports PollReport.lost i
    have m3 := take_map_sum_le reports PollReport.corrupted i
    have m4 := take_map_sum_le reports (fun r => r.available.length) i
    have s1 := sum_map_avail_lost_split (reports.take i)
    have s2 := sum_map_avail_lost_split (reports.take (i + 1))
    refine ⟨by omega, by omega, by omega, by omega⟩

/-- Witness for C4 on a two-cycle session. -/
theorem C4_accounting_monotone_witness :
    (initRecorder : RecorderState Nat).totalSamples = 0 ∧
    (∀ i, (recordRun (initRecorder : RecorderState Nat)
        (([mkReport Status.running [1, 2] 3 1,
          mkReport Status.done [4] 0 0]).take i)).totalSamples =
      ((([mkReport Status.running [1, 2] 3 1,
          mkReport Status.done [4] 0 0] : List (PollReport Nat)).take i).map
        fun r => r.available.length + r.lost).sum) :=
  ⟨rfl, (C4_accounting_monotone initRecorder
    [mkReport Status.running [1, 2] 3 1, mkReport Status.done [4] 0 0]
    false rfl rfl rfl).2.1⟩

/-! ### Claim C5: loss exceeding the capacity -/

/-- C5 counterexample: the implementation does not detect a single-cycle
loss of at least the capacity.  At capacity 4, a run whose second cycle
loses 5 samples in one poll produces a final recorder state EQUAL to
that of a run whose per-cycle losses (3, then 2) are each below the
capacity — so the condition is not distinguishable to the caller at
all, let alone beyond the `lost_samples` counter; and the first run
silently finalizes a full-looking buffer `[3, 4, 1, 5]` that interleaves
epoch-one samples (3, 4 and then 1, out of commit order) with the
epoch-two sample 5. -/
theorem C5_loss_detection_counterexample :
    recordRun (setupRecording (0 : Nat) 4 false initRecorder)
        [mkReport Status.running [1, 2, 3, 4] 0 0, mkReport Status.done [5] 5 0] =
      recordRun (setupRecording (0 : Nat) 4 false initRecorder)
        [mkReport Status.running [1, 2, 3, 4] 0 0, mkReport Status.running [] 3 0,
          mkReport Status.done [5] 2 0] ∧
    (finalizeRecording (recordRun (setupRecording (0 : Nat) 4 false initRecorder)
        [mkReport Status.running [1, 2, 3, 4] 0 0,
          mkReport Status.done [5] 5 0])).dataSamples = some [3, 4, 1, 5] ∧
    (recordRun (setupRecording (0 : Nat) 4 false initRecorder)
        [mkReport Status.running [1, 2, 3, 4] 0 0,
          mkReport Status.done [5] 5 0]).lostSamples = 5 := by
  decide

/-- C5 amended: when a single poll cycle reports `lost ≥ capacity`, the
cycle is processed by the same modulo arithmetic as any other cycle,
with no detection and no error: the cursor still advances to
`(p + lost + available) % capacity`, the loss is reflected only in the
cumulative `lost_samples` counter (which then reaches at least the
capacity when the session started from zero), and finalization still
publishes a full-capacity linearized buffer. -/
theorem C5_loss_detection_amended (capacity : Nat) (s : RecorderState α)
    (r : PollReport α)
    (hsize : s.bufferSize = capacity) (hb : s.dataBuffer.length = capacity)
    (hidx : s.bufferIndex < capacity) (hloss : capacity ≤ r.lost) :
    (processRecording s r).1.bufferIndex =
      (s.bufferIndex + r.lost + r.available.length) % capacity ∧
    (processRecording s r).1.lostSamples = s.lostSamples + r.lost ∧
    capacity ≤ (processRecording s r).1.lostSamples ∧
    (finalizeRecording (processRecording s r).1).dataSamples =
      some (normalizeRingBuffer (processRecording s r).1.dataBuffer
        (processRecording s r).1.bufferIndex) ∧
    ((finalizeRecording (processRecording s r).1).dataSamples.getD []).length =
      capacity := by
  subst hsize
  obtain ⟨hbuf, hcursor⟩ := processRecording_buffer s r hb hidx
  refine ⟨hcursor, rfl, ?_, rfl, ?_⟩
  · rw [processRecording_lostSamples]
    omega
  · show (normalizeRingBuffer (processRecording s r).1.dataBuffer
      (processRecording s r).1.bufferIndex).length = s.bufferSize
    rw [normalizeRingBuffer_length, hbuf, cyclicWrite_length, hb]

/-- Witness for C5 amended: capacity 2, one cycle losing 3 samples. -/
theorem C5_loss_detection_amended_witness :
    2 ≤ 3 ∧
    ((processRecording (setupRecording (0 : Nat) 2 false initRecorder)
        (mkReport Status.done [8] 3 0)).1.bufferIndex = (0 + 3 + 1) % 2 ∧
      2 ≤ (processRecording (setupRecording (0 : Nat) 2 false initRecorder)
        (mkReport Status.done [8] 3 0)).1.lostSamples) := by
  have h := C5_loss_detection_amended 2
    (setupRecording (0 : Nat) 2 false initRecorder) (mkReport Status.done [8] 3 0)
    (by decide) (by decide) (by decide) (by decide)
  exact ⟨by decide, h.1, h.2.2.1⟩

/-! ### Claim C6: session reset on reuse -/

/-- C6 counterexample: the counters are NOT reset by a second
`record()` on the same handle.  A first bounded session of capacity 2
delivers 2 samples (`total_samples = 2`); a second `record()` call on
the resulting state re-runs setup and delivers 2 more samples, after
which `total_samples` is 4, not 2 — the counters accumulate across
sessions (only the buffers and published samples are fresh: the second
session's output is `[7, 8]`, with no data carried over from the
first). -/
theorem C6_session_reset_counterexample :
    (record 0 2 false [mkReport Status.done [7, 8] 0 0] (fun _ _ => true)
      (record (0 : Nat) 2 false [mkReport Status.done [1, 2] 0 0]
        (fun _ _ => true) initRecorder).1).1.totalSamples = 4 ∧
    ¬((record 0 2 false [mkReport Status.done [7, 8] 0 0] (fun _ _ => true)
      (record (0 : Nat) 2 false [mkReport Status.done [1, 2] 0 0]
        (fun _ _ => true) initRecorder).1).1.totalSamples = 2) ∧
    (record 0 2 false [mkReport Status.done [7, 8] 0 0] (fun _ _ => true)
      (record (0 : Nat) 2 false [mkReport Status.done [1, 2] 0 0]
        (fun _ _ => true) initRecorder).1).1.dataSamples = some [7, 8] := by
  decide

/-- C6 amended: re-running `_setup_recording` on a used handle
allocates fresh zero-initialized buffers, resets the cursor and clears
the published samples (nothing is carried over from the previous
session's data), but the session counters `total_samples`,
`lost_samples` and `corrupted_samples` are NOT reset: they keep their
values and accumulate across sessions. -/
theorem C6_session_reset_amended (zero : α) (capacity : Nat) (acquireNoise : Bool)
    (s : RecorderState α) (hcap : 0 < capacity) :
    (setupRecording zero capacity acquireNoise s).dataBuffer =
      List.replicate capacity zero ∧
    (setupRecording zero capacity acquireNoise s).noiseBuffer =
      (if acquireNoise then some (List.replicate capacity zero) else none) ∧
    (setupRecording zero capacity acquireNoise s).bufferIndex = 0 ∧
    (setupRecording zero capacity acquireNoise s).dataSamples = none ∧
    (setupRecording zero capacity acquireNoise s).noiseSamples = none ∧
    (setupRecording zero capacity acquireNoise s).isSetup = true ∧
    (setupRecording zero capacity acquireNoise s).totalSamples = s.totalSamples ∧
    (setupRecording zero capacity acquireNoise s).lostSamples = s.lostSamples ∧
    (setupRecording zero capacity acquireNoise s).corruptedSamples =
      s.corruptedSamples := by
  unfold setupRecording
  rw [if_pos hcap]
  exact ⟨rfl, rfl, rfl, rfl, rfl, rfl, rfl, rfl, rfl⟩

/-- Witness for C6 amended at capacity 3 on a used handle. -/
theorem C6_session_reset_amended_witness :
    0 < 3 ∧
    ((setupRecording (0 : Nat) 3 false
        ({ initRecorder with totalSamples := 7, lostSamples := 2 } :
          RecorderState Nat)).dataBuffer = [0, 0, 0] ∧
      (setupRecording (0 : Nat) 3 false
        ({ initRecorder with totalSamples := 7, lostSamples := 2 } :
          RecorderState Nat)).totalSamples = 7) := by
  have h := C6_session_reset_amended (0 : Nat) 3 false
    ({ initRecorder with totalSamples := 7, lostSamples := 2 } : RecorderState Nat)
    (by decide)
  refine ⟨by decide, ?_, ?_⟩
  · rw [h.1]
    decide
  · rw [h.2.2.2.2.2.2.1]

/-! ### Claim C7: digital sample-format validity -/

/-- C7 counterexample: construction does not fail for every format
outside {8, 16, 32}.  With positive capacity 1, `sample_format = 12`
is accepted (the `<= 16` branch, 2-byte elements) even though 12 is
none of the supported widths. -/
theorem C7_sample_format_counterexample :
    digitalSetupRecording 12 1 false = Except.ok (some ⟨2, [0], none⟩) ∧
    ¬((12 : Int) = 8 ∨ (12 : Int) = 16 ∨ (12 : Int) = 32) :=
  ⟨rfl, by decide⟩

/-- C7 amended: with positive capacity, construction of the digital
channel buffers fails exactly when `sample_format > 32`: any format
`≤ 8` selects 1-byte elements, a format in `(8, 16]` 2-byte, and a
format in `(16, 32]` 4-byte — so the supported widths 8/16/32 select
element sizes 1/2/4 — while a format `> 32` raises `ValueError`. -/
theorem C7_sample_format_amended (sampleFormat : Int) (capacity : Nat)
    (acquireNoise : Bool) (hcap : 0 < capacity) :
    ((∃ e, digitalSetupRecording sampleFormat capacity acquireNoise =
        Except.error e) ↔ 32 < sampleFormat) ∧
    (sampleFormat ≤ 8 →
      digitalSetupRecording sampleFormat capacity acquireNoise =
        Except.ok (some ⟨1, List.replicate capacity 0,
          if acquireNoise then some (List.replicate capacity 0) else none⟩)) ∧
    (8 < sampleFormat → sampleFormat ≤ 16 →
      digitalSetupRecording sampleFormat capacity acquireNoise =
        Except.ok (some ⟨2, List.replicate capacity 0,
          if acquireNoise then some (List.replicate capacity 0) else none⟩)) ∧
    (16 < sampleFormat → sampleFormat ≤ 32 →
      digitalSetupRecording sampleFormat capacity acquireNoise =
        Except.ok (some ⟨4, List.replicate capacity 0,
          if acquireNoise then some (List.replicate capacity 0) else none⟩)) ∧
    (32 < sampleFormat →
      digitalSetupRecording sampleFormat capacity acquireNoise =
        Except.error DwfError.invalidSampleFormat) := by
  unfold digitalSetupRecording digitalSetupBuffers
  rw [if_pos hcap]
  dsimp only
  refine ⟨?_, ?_, ?_, ?_, ?_⟩
  · constructor
    · rintro ⟨e, he⟩
      by_cases h8 : sampleFormat ≤ 8
      · rw [if_pos h8] at he
        cases he
      · rw [if_neg h8] at he
        by_cases h16 : sampleFormat ≤ 16
        · rw [if_pos h16] at he
          cases he
        · rw [if_neg h16] at he
          by_cases h32 : sampleFormat ≤ 32
          · rw [if_pos h32] at he
            cases he
          · omega
    · intro h32
      refine ⟨DwfError.invalidSampleFormat, ?_⟩
      rw [if_neg (by omega), if_neg (by omega), if_neg (by omega)]
      rfl
  · intro h8
    rw [if_pos h8]
    rfl
  · intro h8 h16
    rw [if_neg (by omega), if_pos h16]
    rfl
  · intro h16 h32
    rw [if_neg (by omega), if_neg (by omega), if_pos h32]
    rfl
  · intro h32
    rw [if_neg (by omega), if_neg (by omega), if_neg (by omega)]
    rfl

/-- Witness for C7 amended: format 16, capacity 2, noise on. -/
theorem C7_sample_format_amended_witness :
    0 < 2 ∧
    ((8 : Int) < 16 → (16 : Int) ≤ 16 →
      digitalSetupRecording 16 2 true =
        Except.ok (some ⟨2, List.replicate 2 0,
          if true then some (List.replicate 2 0) else none⟩)) :=
  ⟨by decide, (C7_sample_format_amended 16 2 true (by decide)).2.2.1⟩

/-! ### Claim C8: zero-length recording is a no-op -/

/-- C8: A recording request whose computed capacity is 0 leaves the
state machine unarmed: setup allocates no buffers and does not arm,
`configure(start=True)` is never issued, `record()` performs no poll
cycle and returns immediately, `process()` returns `False`, and all
session counters stay 0. -/
theorem C8_zero_capacity_noop (zero : α) (acquireNoise : Bool)
    (reports : List (PollReport α)) (callback : Nat → RecorderState α → Bool)
    (report : PollReport α) :
    (record zero 0 acquireNoise reports callback initRecorder).2.1 = false ∧
    (record zero 0 acquireNoise reports callback initRecorder).2.2 = 0 ∧
    (record zero 0 acquireNoise reports callback initRecorder).1.isSetup = false ∧
    (record zero 0 acquireNoise reports callback initRecorder).1.dataBuffer = [] ∧
    (record zero 0 acquireNoise reports callback initRecorder).1.noiseBuffer = none ∧
    (record zero 0 acquireNoise reports callback initRecorder).1.totalSamples = 0 ∧
    (record zero 0 acquireNoise reports callback initRecorder).1.lostSamples = 0 ∧
    (record zero 0 acquireNoise reports callback initRecorder).1.corruptedSamples = 0 ∧
    (process zero 0 acquireNoise report initRecorder).2.1 = false ∧
    (process zero 0 acquireNoise report initRecorder).2.2 = false ∧
    (process zero 0 acquireNoise report initRecorder).1.isSetup = false ∧
    (process zero 0 acquireNoise report initRecorder).1.totalSamples = 0 ∧
    (process zero 0 acquireNoise report initRecorder).1.lostSamples = 0 ∧
    (process zero 0 acquireNoise report initRecorder).1.corruptedSamples = 0 :=
  ⟨rfl, rfl, rfl, rfl, rfl, rfl, rfl, rfl, rfl, rfl, rfl, rfl, rfl, rfl⟩

/-! ### Claim C9: the two ANDed stop signals -/

theorem streamCycles_cons_continue (acquireNoise : Bool)
    (cb : Nat → RecorderState α → Bool) (s : RecorderState α) (r : PollReport α)
    (reports : List (PollReport α)) (k : Nat) (hstat : r.status ≠ Status.done)
    (hcb : cb k (updateStreaming acquireNoise s r).1 = true) :
    streamCycles acquireNoise cb s (r :: reports) k =
      streamCycles acquireNoise cb (updateStreaming acquireNoise s r).1 reports
        (k + 1) := by
  rw [streamCycles]
  rw [hcb]
  have h2 : (updateStreaming acquireNoise s r).2 = true := by
    simp [updateStreaming]
    exact hstat
  rw [h2]
  rfl

theorem streamCycles_cons_stop (acquireNoise : Bool)
    (cb : Nat → RecorderState α → Bool) (s : RecorderState α) (r : PollReport α)
    (reports : List (PollReport α)) (k : Nat)
    (hstop : ((updateStreaming acquireNoise s r).2 &&
      cb k (updateStreaming acquireNoise s r).1) = false) :
    streamCycles acquireNoise cb s (r :: reports) k =
      ((updateStreaming acquireNoise s r).1, k + 1) := by
  rw [streamCycles]
  rw [hstop]
  rfl

theorem streamCycles_polls_ge (acquireNoise : Bool)
    (cb : Nat → RecorderState α → Bool) :
    ∀ (reports : List (PollReport α)) (s : RecorderState α) (k : Nat),
      k ≤ (streamCycles acquireNoise cb s reports k).2 := by
  intro reports
  induction reports with
  | nil => intro s k; exact le_refl k
  | cons r rs ih =>
    intro s k
    rw [streamCycles]
    by_cases hc : ((updateStreaming acquireNoise s r).2 &&
        cb k (updateStreaming acquireNoise s r).1) = true
    · rw [hc]
      calc k ≤ k + 1 := by omega
        _ ≤ _ := ih _ (k + 1)
    · rw [Bool.not_eq_true] at hc
      rw [hc]
      simp

theorem streamCycles_cons_polls_ge (acquireNoise : Bool)
    (cb : Nat → RecorderState α → Bool) (s : RecorderState α) (r : PollReport α)
    (reports : List (PollReport α)) (k : Nat) :
    k + 1 ≤ (streamCycles acquireNoise cb s (r :: reports) k).2 := by
  rw [streamCycles]
  by_cases hc : ((updateStreaming acquireNoise s r).2 &&
      cb k (updateStreaming acquireNoise s r).1) = true
  · rw [hc]
    exact streamCycles_polls_ge acquireNoise cb reports _ (k + 1)
  · rw [Bool.not_eq_true] at hc
    rw [hc]
    simp

/-- C9: Two ANDed stop signals.  Each loop cycle of `record()` /
`stream()` performs exactly one poll and then one callback invocation,
and continues exactly when both the state machine's continuation signal
and the callback's return value are true (first two conjuncts: the loop
bodies are literally that test, for both loops).  On a nonempty report
stream the loop stops after exactly one poll iff one of the two signals
is false (third conjunct).  A streaming session whose callback returns
true on cycles 0 and 1 and false on cycle 2, while the instrument never
reports Done, performs exactly 3 poll cycles and returns (fourth
conjunct). -/
theorem C9_two_stop_signals (acquireNoise : Bool) (s : RecorderState α)
    (callback : Nat → RecorderState α → Bool) (r : PollReport α)
    (reports rs : List (PollReport α)) (r0 r1 r2 : PollReport α) (k : Nat) :
    (recordCycles callback s (r :: reports) k =
      if (processRecording s r).2 && callback k (processRecording s r).1
      then recordCycles callback (processRecording s r).1 reports (k + 1)
      else ((processRecording s r).1, k + 1)) ∧
    (streamCycles acquireNoise callback s (r :: reports) k =
      if (updateStreaming acquireNoise s r).2 &&
          callback k (updateStreaming acquireNoise s r).1
      then streamCycles acquireNoise callback (updateStreaming acquireNoise s r).1
        reports (k + 1)
      else ((updateStreaming acquireNoise s r).1, k + 1)) ∧
    (reports ≠ [] →
      ((streamCycles acquireNoise callback s (r :: reports) k).2 = k + 1 ↔
        ¬((updateStreaming acquireNoise s r).2 = true ∧
          callback k (updateStreaming acquireNoise s r).1 = true))) ∧
    (r0.status ≠ Status.done → r1.status ≠ Status.done → r2.status ≠ Status.done →
      (∀ t, callback 0 t = true) → (∀ t, callback 1 t = true) →
      (∀ t, callback 2 t = false) →
      (stream acquireNoise (r0 :: r1 :: r2 :: rs) callback initRecorder).2 = 3) := by
  refine ⟨rfl, rfl, ?_, ?_⟩
  · intro hne
    by_cases hc : ((updateStreaming acquireNoise s r).2 &&
        callback k (updateStreaming acquireNoise s r).1) = true
    · rw [Bool.and_eq_true] at hc
      obtain ⟨hs2, hcb2⟩ := hc
      have hstat : r.status ≠ Status.done := by
        have h3 := hs2
        simp [updateStreaming] at h3
        exact h3
      rw [streamCycles_cons_continue acquireNoise callback s r reports k hstat hcb2]
      constructor
      · cases reports with
        | nil => exact fun _ => absurd rfl hne
        | cons r2a rs2 =>
          intro habs
          have hge := streamCycles_cons_polls_ge acquireNoise callback
            (updateStreaming acquireNoise s r).1 r2a rs2 (k + 1)
          exfalso
          omega
      · intro habs
        exact absurd ⟨hs2, hcb2⟩ habs
    · rw [Bool.not_eq_true] at hc
      rw [streamCycles_cons_stop acquireNoise callback s r reports k hc]
      simp only [Bool.and_eq_false_iff] at hc
      constructor
      · intro _
        intro hboth
        rcases hc with h | h
        · rw [hboth.1] at h
          cases h
        · rw [hboth.2] at h
          cases h
      · intro _
        rfl
  · intro h0 h1 h2 hc0 hc1 hc2
    show (streamCycles acquireNoise callback (setupStreaming initRecorder)
      (r0 :: r1 :: r2 :: rs) 0).2 = 3
    rw [streamCycles_cons_continue acquireNoise callback _ r0 _ 0 h0 (hc0 _),
      streamCycles_cons_continue acquireNoise callback _ r1 _ 1 h1 (hc1 _),
      streamCycles_cons_stop acquireNoise callback _ r2 _ 2 (by rw [hc2]; simp)]

/-- Witness for C9 on a concrete three-report stream with the
stop-after-two-cycles callback. -/
theorem C9_two_stop_signals_witness :
    ((mkReport Status.running ([1] : List Nat) 0 0).status ≠ Status.done) ∧
    (stream false
      [mkReport Status.running ([1] : List Nat) 0 0,
        mkReport Status.running [2] 0 0, mkReport Status.running [3] 0 0]
      (fun k _ => decide (k < 2)) initRecorder).2 = 3 :=
  ⟨by decide,
    (C9_two_stop_signals false initRecorder (fun k _ => decide (k < 2))
      (mkReport Status.running [1] 0 0) [] []
      (mkReport Status.running [1] 0 0) (mkReport Status.running [2] 0 0)
      (mkReport Status.running [3] 0 0) 0).2.2.2
      (by decide) (by decide) (by decide)
      (fun t => by decide) (fun t => by decide) (fun t => by decide)⟩

/-! ### Claim C10: fixed-length output and zero defaults -/

theorem rot_getD (buffer : List α) (c k : Nat) (z : α) (hc : c < buffer.length)
    (hk : k < buffer.length) :
    (buffer.drop c ++ buffer.take c).getD k z =
      buffer.getD ((c + k) % buffer.length) z := by
  rw [List.getD_eq_getElem?_getD, List.getD_eq_getElem?_getD, List.getElem?_append,
    List.length_drop]
  by_cases hcase : k < buffer.length - c
  · rw [if_pos hcase, List.getElem?_drop]
    have h1 : (c + k) % buffer.length = c + k := Nat.mod_eq_of_lt (by omega)
    rw [h1]
  · rw [if_neg hcase, List.getElem?_take]
    rw [if_pos (by omega)]
    have h1 : (c + k) % buffer.length = k - (buffer.length - c) := by
      have h2 : c + k = buffer.length + (k - (buffer.length - c)) := by omega
      rw [h2, Nat.add_mod_left, Nat.mod_eq_of_lt (by omega)]
    rw [h1]

theorem getD_replicate_self (n i : Nat) (z : α) :
    (List.replicate n z).getD i z = z := by
  rw [List.getD_eq_getElem?_getD, List.getElem?_replicate]
  split <;> rfl

theorem recordRun_requestedSamples (s : RecorderState α)
    (reports : List (PollReport α)) :
    (recordRun s reports).requestedSamples = s.requestedSamples := by
  induction reports generalizing s with
  | nil => rfl
  | cons r rs ih =>
    rw [recordRun_cons]
    exact ih _

theorem recordRun_untouched (capacity : Nat) (s : RecorderState α)
    (reports : List (PollReport α)) (z : α) (i : Nat)
    (hs : GoodState capacity s) (hi : i < capacity)
    (hmem : i ∉ runWrites capacity s.bufferIndex reports) :
    (recordRun s reports).dataBuffer.getD i z = s.dataBuffer.getD i z := by
  induction reports generalizing s with
  | nil => rfl
  | cons r rs ih =>
    obtain ⟨hsize, hb, hidx, hnz⟩ := hs
    subst hsize
    rw [runWrites, List.mem_append] at hmem
    push_neg at hmem
    obtain ⟨hm1, hm2⟩ := hmem
    have hstep := processRecording_buffer s r (by omega) (by omega)
    have hgood2 := processRecording_good s.bufferSize s r ⟨rfl, hb, hidx, hnz⟩
    have hcursor2 : (cycleWrites s.bufferSize s.bufferIndex r).2 =
        (processRecording s r).1.bufferIndex := by
      rw [hstep.2, cycleWrites]
      dsimp only
      rw [Nat.mod_add_mod]
    rw [recordRun_cons, ih (processRecording s r).1 hgood2 ?hmem2]
    case hmem2 =>
      rw [← hcursor2]
      exact hm2
    rw [hstep.1]
    apply cyclicWrite_getD_untouched
    intro j hj heq
    apply hm1
    rw [cycleWrites]
    dsimp only
    rw [List.mem_map]
    exact ⟨j, List.mem_range.mpr hj, heq.symm⟩

theorem recordRun_noise_some (capacity : Nat) (s : RecorderState α)
    (reports : List (PollReport α)) (nb : List α)
    (hs : GoodState capacity s) (hnb : s.noiseBuffer = some nb) :
    ∃ nb2, (recordRun s reports).noiseBuffer = some nb2 := by
  induction reports generalizing s nb with
  | nil => exact ⟨nb, hnb⟩
  | cons r rs ih =>
    obtain ⟨hsize, hb, hidx, hnz⟩ := hs
    subst hsize
    have hnblen : nb.length = s.bufferSize := hnz nb hnb
    have hnoise2 := processRecording_noiseBuffer_some s r nb hnb hnblen hidx
    rw [recordRun_cons]
    exact ih (processRecording s r).1 _
      (processRecording_good _ s r ⟨rfl, hb, hidx, hnz⟩) hnoise2

theorem recordRun_noise_untouched (capacity : Nat) (s : RecorderState α)
    (reports : List (PollReport α)) (z : α) (i : Nat) (nb : List α)
    (hs : GoodState capacity s) (hnb : s.noiseBuffer = some nb) (hi : i < capacity)
    (hmem : i ∉ runWrites capacity s.bufferIndex reports)
    (hlen : ∀ r ∈ reports, r.noise.length = r.available.length) :
    ∃ nb2, (recordRun s reports).noiseBuffer = some nb2 ∧
      nb2.getD i z = nb.getD i z := by
  induction reports generalizing s nb with
  | nil => exact ⟨nb, hnb, rfl⟩
  | cons r rs ih =>
    obtain ⟨hsize, hb, hidx, hnz⟩ := hs
    subst hsize
    have hnblen : nb.length = s.bufferSize := hnz nb hnb
    rw [runWrites, List.mem_append] at hmem
    push_neg at hmem
    obtain ⟨hm1, hm2⟩ := hmem
    have hstep := processRecording_buffer s r (by omega) (by omega)
    have hgood2 := processRecording_good s.bufferSize s r ⟨rfl, hb, hidx, hnz⟩
    have hcursor2 : (cycleWrites s.bufferSize s.bufferIndex r).2 =
        (processRecording s r).1.bufferIndex := by
      rw [hstep.2, cycleWrites]
      dsimp only
      rw [Nat.mod_add_mod]
    have hnoise2 := processRecording_noiseBuffer_some s r nb hnb hnblen hidx
    rw [recordRun_cons]
    have hmem2 : i ∉ runWrites s.bufferSize (processRecording s r).1.bufferIndex rs := by
      rw [← hcursor2]
      exact hm2
    have hlen2 : ∀ r2 ∈ rs, r2.noise.length = r2.available.length :=
      fun r2 hr2 => hlen r2 (List.mem_cons_of_mem _ hr2)
    obtain ⟨nb2, hnb2, hgd⟩ := ih (processRecording s r).1
      (cyclicWrite s.bufferSize nb ((s.bufferIndex + r.lost) % s.bufferSize) r.noise)
      hgood2 hnoise2 hmem2 hlen2
    refine ⟨nb2, hnb2, hgd.trans ?_⟩
    apply cyclicWrite_getD_untouched
    intro j hj heq
    apply hm1
    rw [cycleWrites]
    dsimp only
    rw [List.mem_map]
    refine ⟨j, List.mem_range.mpr ?_, heq.symm⟩
    rw [← hlen r (List.mem_cons_self r rs)]
    exact hj

/-- C10: Fixed-length output regardless of delivered count.  For any
bounded recording of positive capacity, finalization publishes
`data_samples` of length exactly the capacity (`requested_samples`),
and `noise_samples` likewise when noise capture is active, whatever the
poll cycles delivered; every output position whose ring-buffer slot was
never written still holds the buffer's zero-initialized default. -/
theorem C10_fixed_length_output (capacity : Nat) (zero : α) (acquireNoise : Bool)
    (reports : List (PollReport α)) (hcap : 0 < capacity)
    (hlen : ∀ r ∈ reports, r.noise.length = r.available.length) :
    (∃ out, (finalizeRecording (recordRun
        (setupRecording zero capacity acquireNoise initRecorder)
        reports)).dataSamples = some out ∧
      out.length = capacity ∧
      (finalizeRecording (recordRun
        (setupRecording zero capacity acquireNoise initRecorder)
        reports)).requestedSamples = capacity ∧
      (∀ k, k < capacity →
        ((recordRun (setupRecording zero capacity acquireNoise initRecorder)
            reports).bufferIndex + k) % capacity ∉ runWrites capacity 0 reports →
        out.getD k zero = zero)) ∧
    (acquireNoise = true →
      ∃ nout, (finalizeRecording (recordRun
          (setupRecording zero capacity acquireNoise initRecorder)
          reports)).noiseSamples = some nout ∧
        nout.length = capacity ∧
        (∀ k, k < capacity →
          ((recordRun (setupRecording zero capacity acquireNoise initRecorder)
              reports).bufferIndex + k) % capacity ∉ runWrites capacity 0 reports →
          nout.getD k zero = zero)) := by
  have hgood0 : GoodState capacity
      (setupRecording zero capacity acquireNoise (initRecorder (α := α))) :=
    setupRecording_good zero capacity acquireNoise initRecorder hcap
  have hgoodF := recordRun_good capacity _ reports hgood0
  obtain ⟨hsizeF, hbF, hidxF, hnzF⟩ := hgoodF
  have hsetup_buf : (setupRecording zero capacity acquireNoise
      (initRecorder (α := α))).dataBuffer = List.replicate capacity zero := by
    simp [setupRecording, hcap]
  have hsetup_idx : (setupRecording zero capacity acquireNoise
      (initRecorder (α := α))).bufferIndex = 0 := by
    simp [setupRecording, hcap, initRecorder]
  have hsetup_req : (setupRecording zero capacity acquireNoise
      (initRecorder (α := α))).requestedSamples = capacity := by
    simp [setupRecording, hcap]
  constructor
  · refine ⟨normalizeRingBuffer
      (recordRun (setupRecording zero capacity acquireNoise initRecorder)
        reports).dataBuffer
      (recordRun (setupRecording zero capacity acquireNoise initRecorder)
        reports).bufferIndex, rfl, ?_, ?_, ?_⟩
    · rw [normalizeRingBuffer_length]
      omega
    · show (recordRun (setupRecording zero capacity acquireNoise initRecorder)
        reports).requestedSamples = capacity
      rw [recordRun_requestedSamples, hsetup_req]
    · intro k hk hw
      rw [normalizeRingBuffer_eq_rot, rot_getD _ _ _ _ (by omega) (by omega), hbF]
      have huntouched := recordRun_untouched capacity
        (setupRecording zero capacity acquireNoise initRecorder) reports zero
        (((recordRun (setupRecording zero capacity acquireNoise initRecorder)
          reports).bufferIndex + k) % capacity) hgood0
        (Nat.mod_lt _ (by omega)) ?hmem0
      case hmem0 =>
        rw [hsetup_idx]
        exact hw
      rw [huntouched, hsetup_buf, getD_replicate_self]
  · intro hnoiseOn
    subst hnoiseOn
    have hsetup_nb : (setupRecording zero capacity true
        (initRecorder (α := α))).noiseBuffer = some (List.replicate capacity zero) := by
      simp [setupRecording, hcap]
    have hall : ∀ k, k < capacity →
        ((recordRun (setupRecording zero capacity true initRecorder)
            reports).bufferIndex + k) % capacity ∉ runWrites capacity 0 reports →
        ∃ nb2, (recordRun (setupRecording zero capacity true initRecorder)
            reports).noiseBuffer = some nb2 ∧
          nb2.getD (((recordRun (setupRecording zero capacity true initRecorder)
            reports).bufferIndex + k) % capacity) zero = zero := by
      intro k hk hw
      have hmem1 : (((recordRun (setupRecording zero capacity true initRecorder)
          reports).bufferIndex + k) % capacity) ∉ runWrites capacity
          (setupRecording zero capacity true
            (initRecorder (α := α))).bufferIndex reports := by
        rw [hsetup_idx]
        exact hw
      obtain ⟨nb2, hnb2, hgd⟩ := recordRun_noise_untouched capacity
        (setupRecording zero capacity true initRecorder) reports zero
        (((recordRun (setupRecording zero capacity true initRecorder)
          reports).bufferIndex + k) % capacity) (List.replicate capacity zero)
        hgood0 hsetup_nb (Nat.mod_lt _ (by omega)) hmem1 hlen
      exact ⟨nb2, hnb2, hgd.trans (getD_replicate_self _ _ _)⟩
    cases hnbF : (recordRun (setupRecording zero capacity true initRecorder)
        reports).noiseBuffer with
    | none =>
      exfalso
      obtain ⟨nb0, hnb0⟩ := recordRun_noise_some capacity
        (setupRecording zero capacity true initRecorder) reports
        (List.replicate capacity zero) hgood0 hsetup_nb
      rw [hnbF] at hnb0
      cases hnb0
    | some nbF =>
      refine ⟨normalizeRingBuffer nbF
        (recordRun (setupRecording zero capacity true initRecorder)
          reports).bufferIndex, ?_, ?_, ?_⟩
      · show (match (recordRun (setupRecording zero capacity true initRecorder)
            reports).noiseBuffer with
          | some nb => some (normalizeRingBuffer nb
              (recordRun (setupRecording zero capacity true initRecorder)
                reports).bufferIndex)
          | none => (recordRun (setupRecording zero capacity true initRecorder)
              reports).noiseSamples) = _
        rw [hnbF]
      · rw [normalizeRingBuffer_length]
        rw [hnzF nbF hnbF]
      · intro k hk hw
        have hnblen : nbF.length = capacity := hnzF nbF hnbF
        rw [normalizeRingBuffer_eq_rot, rot_getD _ _ _ _ (by omega) (by omega),
          hnblen]
        obtain ⟨nb2, hnb2, hgd⟩ := hall k hk hw
        rw [hnbF] at hnb2
        cases hnb2
        exact hgd

/-- Witness for C10: capacity 2 with noise capture, one Done cycle
delivering one sample after one lost slot (so only one of the two
slots is ever written). -/
theorem C10_fixed_length_output_witness :
    0 < 2 ∧
    (∀ r ∈ ([⟨Status.done, [4], 1, 0, [6]⟩] : List (PollReport Nat)),
      r.noise.length = r.available.length) ∧
    (∃ out, (finalizeRecording (recordRun
        (setupRecording (0 : Nat) 2 true initRecorder)
        [⟨Status.done, [4], 1, 0, [6]⟩])).dataSamples = some out ∧
      out.length = 2 ∧
      (finalizeRecording (recordRun
        (setupRecording (0 : Nat) 2 true initRecorder)
        [⟨Status.done, [4], 1, 0, [6]⟩])).requestedSamples = 2 ∧
      (∀ k, k < 2 →
        ((recordRun (setupRecording (0 : Nat) 2 true initRecorder)
            [⟨Status.done, [4], 1, 0, [6]⟩]).bufferIndex + k) % 2 ∉
          runWrites 2 0 [⟨Status.done, [4], 1, 0, [6]⟩] →
        out.getD k 0 = 0)) :=
  ⟨by decide, by decide,
    (C10_fixed_length_output 2 0 true [⟨Status.done, [4], 1, 0, [6]⟩]
      (by decide) (by decide)).1⟩

end DwfPy
